import Mathlib

/-!
Verification of the guardian signing model and the iterative resolver
protocol of the `wormhole-svm-test` crate, as a shallow embedding.

Bytes are modelled as `Nat` values (< 256 where it matters); byte strings
as `List Nat`.  The external cryptographic primitives (keccak-256,
secp256k1 public-key derivation and ECDSA signing) are parameters of the
development, packaged in a `Crypto` structure together with the shape
facts the library guarantees (output lengths, byte-ranged outputs).  The
LiteSVM execution environment is likewise packaged as an `Env` oracle
with a `simulate` and a `decode` operation.
-/

/-- Little-endian byte encoding of `x` into exactly `n` bytes
(truncating at `256 ^ n`, matching `u64::to_le_bytes` and friends). -/
def natToLEBytes : Nat → Nat → List Nat
  | 0, _ => []
  | n + 1, x => x % 256 :: natToLEBytes n (x / 256)

/-- Big-endian interpretation of a byte string as a natural number,
matching how `libsecp256k1` reads a 32-byte scalar. -/
def beBytesToNat (b : List Nat) : Nat :=
  b.foldl (fun a x => a * 256 + x) 0

theorem natToLEBytes_length (n x : Nat) : (natToLEBytes n x).length = n := by
  induction n generalizing x with
  | zero => rfl
  | succ n ih => simp [natToLEBytes, ih]

theorem natToLEBytes_inj {n i j : Nat} (hi : i < 256 ^ n) (hj : j < 256 ^ n)
    (h : natToLEBytes n i = natToLEBytes n j) : i = j := by
  induction n generalizing i j with
  | zero =>
    simp [Nat.pow_zero, Nat.lt_one_iff] at hi hj
    omega
  | succ n ih =>
    simp only [natToLEBytes, List.cons.injEq] at h
    have hdiv : i / 256 = j / 256 := by
      refine ih ?_ ?_ h.2
      · exact Nat.div_lt_of_lt_mul (by rw [Nat.pow_succ] at hi; omega)
      · exact Nat.div_lt_of_lt_mul (by rw [Nat.pow_succ] at hj; omega)
    have h1 := Nat.div_add_mod i 256
    have h2 := Nat.div_add_mod j 256
    omega

/-- The order of the secp256k1 curve group; a 32-byte string is a valid
secret key for `libsecp256k1::SecretKey::parse` iff its big-endian value
is nonzero and below this order. -/
def secpOrder : Nat :=
  0xFFFFFFFFFFFFFFFFFFFFFFFFFFFFFFFEBAAEDCE6AF48A03BBFD25E8CD0364141

/-- The external cryptographic primitives used by `guardian.rs`, together
with the shape guarantees the `sha3` / `libsecp256k1` crates provide:
keccak-256 returns 32 bytes, serialized uncompressed public keys are 65
bytes, and an ECDSA signature serializes to 64 bytes plus a recovery id. -/
structure Crypto where
  keccak256 : List Nat → List Nat
  pubkeySerialize : Nat → List Nat
  secpSign : Nat → List Nat → List Nat × Nat
  keccak256_length : ∀ b, (keccak256 b).length = 32
  keccak256_byte : ∀ b, ∀ x ∈ keccak256 b, x < 256
  pubkeySerialize_length : ∀ k, (pubkeySerialize k).length = 65
  secpSign_length : ∀ k d, (secpSign k d).1.length = 64

/-- Error raised (as a panic in the Rust source, modelled as `Except`)
when secret-key bytes are not a valid curve scalar. -/
inductive GuardianError where
  | InvalidKey
deriving DecidableEq, Repr

/-- A parsed secp256k1 secret key, carrying its scalar value. -/
structure SecretKey where
  scalar : Nat
deriving DecidableEq, Repr

/-- `libsecp256k1::SecretKey::parse`: accepts exactly the byte strings
whose big-endian value is nonzero and below the curve order. -/
def SecretKey.parse (b : List Nat) : Except GuardianError SecretKey :=
  if 0 < beBytesToNat b ∧ beBytesToNat b < secpOrder then
    .ok ⟨beBytesToNat b⟩
  else
    .error .InvalidKey

/-- Key bytes that represent a valid scalar for the secp256k1 curve. -/
def validSecretKeyBytes (b : List Nat) : Prop :=
  0 < beBytesToNat b ∧ beBytesToNat b < secpOrder

instance (b : List Nat) : Decidable (validSecretKeyBytes b) := by
  unfold validSecretKeyBytes; infer_instance

/-- `TestGuardian` from `guardian.rs`: secret key, public key (serialized
uncompressed), Ethereum-style address, and index within a set. -/
structure TestGuardian where
  secret_key : SecretKey
  public_key : List Nat
  eth_address : List Nat
  index : Nat
deriving DecidableEq, Repr

/-- `TestGuardian::new`: parse the secret key (the Rust code panics on
invalid bytes, modelled as an `Except` error), derive the public key, and
take the last 20 bytes of keccak256 of the public key minus its prefix
byte as the address. -/
def TestGuardian.new (C : Crypto) (secret_key : List Nat) (index : Nat) :
    Except GuardianError TestGuardian :=
  match SecretKey.parse secret_key with
  | .error e => .error e
  | .ok sk =>
    let pubkey_bytes := C.pubkeySerialize sk.scalar
    let hash := C.keccak256 (pubkey_bytes.drop 1)
    let eth_address := (hash.drop 12).take 20
    .ok { secret_key := sk, public_key := pubkey_bytes,
          eth_address := eth_address, index := index }

/-- `TestGuardian::sign`: ECDSA-sign a digest and return the 64-byte
serialized signature followed by the 1-byte recovery id (65 bytes). -/
def TestGuardian.sign (C : Crypto) (g : TestGuardian) (digest : List Nat) :
    List Nat :=
  let sr := C.secpSign g.secret_key.scalar digest
  sr.1 ++ [sr.2]

/-- `TestGuardian::sign_vaa_body`: double-keccak the body and prepend the
guardian index to the 65-byte signature, giving a 66-byte record. -/
def TestGuardian.sign_vaa_body (C : Crypto) (g : TestGuardian)
    (vaa_body : List Nat) : List Nat :=
  let message_hash := C.keccak256 vaa_body
  let digest := C.keccak256 message_hash
  let signature := g.sign C digest
  g.index :: signature

/-- `TestGuardianSet` from `guardian.rs`: an ordered list of guardians. -/
structure TestGuardianSet where
  guardians : List TestGuardian
deriving DecidableEq, Repr

/-- Collect an `Except`-valued map over a list, stopping at the first
error: the `Iterator::map(..).collect()` of `generate`, where the closure
may abort (panic, modelled as the error). -/
def mapExcept {ε α β : Type} (f : α → Except ε β) : List α → Except ε (List β)
  | [] => .ok []
  | a :: l =>
    match f a with
    | .error e => .error e
    | .ok b =>
      match mapExcept f l with
      | .error e => .error e
      | .ok bs => .ok (b :: bs)

/-- The 40-byte hash input `generate` builds for guardian `i`: a
zero-initialized `[u8; 40]` whose first 8 bytes are the seed (LE) and
whose next 8 bytes are the index (LE), the remaining 24 bytes zero. -/
def genInput (seed i : Nat) : List Nat :=
  natToLEBytes 8 seed ++ natToLEBytes 8 i ++ List.replicate 24 0

/-- `TestGuardianSet::generate`: guardian `i`'s secret key bytes are
`keccak256(genInput seed i)`, its index is `i as u8`, i.e. `i % 256`. -/
def TestGuardianSet.generate (C : Crypto) (count seed : Nat) :
    Except GuardianError TestGuardianSet :=
  match mapExcept
      (fun i => TestGuardian.new C (C.keccak256 (genInput seed i)) (i % 256))
      (List.range count) with
  | .error e => .error e
  | .ok gs => .ok ⟨gs⟩

/-- `TestGuardianSet::sign_vaa_body_with`: look up each requested index,
silently dropping out-of-bounds ones, and sign with each hit. -/
def TestGuardianSet.sign_vaa_body_with (C : Crypto) (s : TestGuardianSet)
    (vaa_body : List Nat) (indices : List Nat) : List (List Nat) :=
  (indices.filterMap (fun i => s.guardians.get? i)).map
    (fun g => g.sign_vaa_body C vaa_body)

/-! ## Resolver model (`resolver.rs`) -/

/-- A Solana public key, modelled abstractly as a natural number. -/
abbrev Pubkey := Nat

/-- An instruction group returned by the resolver; its contents are
opaque to the client, modelled as an abstract token. -/
abbrev InstructionGroup := Nat

/-- `solana_sdk::instruction::AccountMeta`. -/
structure AccountMeta where
  pubkey : Pubkey
  is_signer : Bool
  is_writable : Bool
deriving DecidableEq, Repr

/-- `AccountMeta::new_readonly`: not writable. -/
def AccountMeta.new_readonly (pubkey : Pubkey) (is_signer : Bool) :
    AccountMeta :=
  { pubkey := pubkey, is_signer := is_signer, is_writable := false }

/-- Sentinel pubkey standing for the payer, substituted eagerly.
The concrete 32-byte value lives in the external
`executor-account-resolver-svm` crate; only its distinctness from the
other sentinels matters here. -/
def RESOLVER_PUBKEY_PAYER : Pubkey := 101

/-- Sentinel pubkey standing for the guardian-set (quorum-membership)
account, substituted eagerly. -/
def RESOLVER_PUBKEY_GUARDIAN_SET : Pubkey := 102

/-- Sentinel pubkey standing for the shim signature-record account,
deliberately left unsubstituted until execution time. -/
def RESOLVER_PUBKEY_SHIM_VAA_SIGS : Pubkey := 103

/-- The fixed 8-byte instruction discriminator for the
`resolve_execute_vaa_v1` query (opaque external constant). -/
def RESOLVER_EXECUTE_VAA_V1 : List Nat := [201, 202, 203, 204, 205, 206, 207, 208]

/-- The three-way resolver outcome decoded from the return payload. -/
inductive ResolverOutcome where
  | Resolved (groups : List InstructionGroup)
  | Missing (accounts : List Pubkey) (address_lookup_tables : List Pubkey)
  | Account
deriving DecidableEq, Repr

/-- The errors `resolve_execute_vaa_v1` surfaces (formatted strings in
the Rust source, modelled as a closed inductive carrying the same
context: the iteration number where the message format includes it). -/
inductive ResolveError where
  | SimulationFailed (iteration : Nat) (msg : String)
  | EmptyResponse (iteration : Nat)
  | DeserializationError
  | UnsupportedOutcome
  | ResolutionExhausted (max_iterations : Nat)
deriving DecidableEq, Repr

/-- `ResolverResult`: resolved instruction groups plus the round count. -/
structure ResolverResult where
  instruction_groups : List InstructionGroup
  iterations : Nat
deriving DecidableEq, Repr

/-- The simulated execution environment (LiteSVM) together with the
borsh decoder for the external `Resolver<InstructionGroups>` type:
`simulate` maps (program id, payer, instruction data, accounts) to a
transport error or the simulation's return-data bytes, and `decode`
deserializes those bytes into an outcome when possible. -/
structure Env where
  simulate : Pubkey → Pubkey → List Nat → List AccountMeta →
    Except String (List Nat)
  decode : List Nat → Option ResolverOutcome

/-- The instruction data built each round: 8-byte discriminator, 4-byte
little-endian body length (`len as u32`), then the body bytes. -/
def mkIxData (vaa_body : List Nat) : List Nat :=
  RESOLVER_EXECUTE_VAA_V1 ++ natToLEBytes 4 vaa_body.length ++ vaa_body

/-- `substitute_placeholder`: payer and guardian-set sentinels are
replaced; everything else (including the shim signature sentinel) passes
through unchanged. -/
def substitute_placeholder (pubkey : Pubkey) (payer : Pubkey)
    (guardian_set : Pubkey) : Pubkey :=
  if pubkey = RESOLVER_PUBKEY_PAYER then payer
  else if pubkey = RESOLVER_PUBKEY_GUARDIAN_SET then guardian_set
  else pubkey

instance {ε α : Type} [DecidableEq ε] [DecidableEq α] :
    DecidableEq (Except ε α) := fun
  | .error e, .error e' =>
    if h : e = e' then .isTrue (by rw [h])
    else .isFalse (by intro hc; cases hc; exact h rfl)
  | .error _, .ok _ => .isFalse (by intro h; cases h)
  | .ok _, .error _ => .isFalse (by intro h; cases h)
  | .ok a, .ok b =>
    if h : a = b then .isTrue (by rw [h])
    else .isFalse (by intro hc; cases hc; exact h rfl)

/-- Outcome of one round of the resolution loop: either the session ends
with a result, or it continues with a grown account list. -/
inductive RoundResult where
  | done : Except ResolveError ResolverResult → RoundResult
  | next : List AccountMeta → RoundResult
deriving DecidableEq, Repr

/-- The body of the `for iteration in 1..=max_iterations` loop of
`resolve_execute_vaa_v1`: simulate with the accumulated accounts, check
for an empty payload, decode, and dispatch on the three outcomes. -/
def resolveRound (env : Env) (program_id payer : Pubkey)
    (vaa_body : List Nat) (guardian_set : Pubkey) (iteration : Nat)
    (remaining_accounts : List AccountMeta) : RoundResult :=
  match env.simulate program_id payer (mkIxData vaa_body)
      remaining_accounts with
  | .error e => .done (.error (.SimulationFailed iteration e))
  | .ok data =>
    if data = [] then
      .done (.error (.EmptyResponse iteration))
    else
      match env.decode data with
      | none => .done (.error .DeserializationError)
      | some (.Resolved groups) =>
        .done (.ok { instruction_groups := groups, iterations := iteration })
      | some (.Missing missing _alts) =>
        .next (remaining_accounts ++ missing.map (fun pubkey =>
          AccountMeta.new_readonly
            (substitute_placeholder pubkey payer guardian_set) false))
      | some .Account => .done (.error .UnsupportedOutcome)

/-- The loop of `resolve_execute_vaa_v1`, counted down by remaining
rounds (`fuel`); the current 1-based iteration is
`max_iterations - fuel + 1`. -/
def resolveGo (env : Env) (program_id payer : Pubkey) (vaa_body : List Nat)
    (guardian_set : Pubkey) (max_iterations : Nat) :
    Nat → List AccountMeta → Except ResolveError ResolverResult
  | 0, _ => .error (.ResolutionExhausted max_iterations)
  | fuel + 1, remaining_accounts =>
    match resolveRound env program_id payer vaa_body guardian_set
        (max_iterations - fuel) remaining_accounts with
    | .done r => r
    | .next remaining' =>
      resolveGo env program_id payer vaa_body guardian_set max_iterations
        fuel remaining'

/-- `resolve_execute_vaa_v1`: run up to `max_iterations` rounds starting
from an empty account list. -/
def resolve_execute_vaa_v1 (env : Env) (program_id payer : Pubkey)
    (vaa_body : List Nat) (guardian_set : Pubkey) (max_iterations : Nat) :
    Except ResolveError ResolverResult :=
  resolveGo env program_id payer vaa_body guardian_set max_iterations
    max_iterations []

/-- One resolution step at some iteration number: the round continued
with the grown account list. -/
def ResolveStep (env : Env) (program_id payer : Pubkey)
    (vaa_body : List Nat) (guardian_set : Pubkey)
    (rem rem' : List AccountMeta) : Prop :=
  ∃ iteration, resolveRound env program_id payer vaa_body guardian_set
    iteration rem = .next rem'

/-- Reachability of one accumulated account list from another by zero or
more resolution rounds within one session. -/
def ResolveReaches (env : Env) (program_id payer : Pubkey)
    (vaa_body : List Nat) (guardian_set : Pubkey) :
    List AccountMeta → List AccountMeta → Prop :=
  Relation.ReflTransGen (ResolveStep env program_id payer vaa_body guardian_set)

/-! ## Concrete instantiations used to exercise the definitions -/

/-- Sum of the bytes of a list, kept small; used to build cheap but
input-sensitive stand-ins for the hash primitives below. -/
def byteSum (b : List Nat) : Nat :=
  b.foldl (fun a x => a + x) 0

/-- A concrete, executable `Crypto` instance (a toy hash summing the
input into the last byte): every output is a valid, small scalar. -/
def Cw : Crypto where
  keccak256 b := List.replicate 31 0 ++ [byteSum b % 199 + 1]
  pubkeySerialize k := 4 :: natToLEBytes 64 k
  secpSign k d := (natToLEBytes 64 (k + d.length), 1)
  keccak256_length b := by simp
  keccak256_byte b x hx := by
    simp only [List.mem_append, List.mem_replicate, List.mem_singleton] at hx
    rcases hx with ⟨-, h⟩ | h
    · omega
    · have := Nat.mod_lt (byteSum b) (show 0 < 199 by norm_num)
      omega
  pubkeySerialize_length k := by simp [natToLEBytes_length]
  secpSign_length k d := by simp [natToLEBytes_length]

/-- A concrete, executable `Crypto` instance whose toy hash depends only
on the input length: it distinguishes inputs of different lengths. -/
def Cx : Crypto where
  keccak256 b := List.replicate 31 0 ++ [b.length % 200 + 1]
  pubkeySerialize k := 4 :: natToLEBytes 64 k
  secpSign k _ := (natToLEBytes 64 k, 1)
  keccak256_length b := by simp
  keccak256_byte b x hx := by
    simp only [List.mem_append, List.mem_replicate, List.mem_singleton] at hx
    rcases hx with ⟨-, h⟩ | h
    · omega
    · have := Nat.mod_lt b.length (show 0 < 200 by norm_num)
      omega
  pubkeySerialize_length k := by simp [natToLEBytes_length]
  secpSign_length k _ := by simp [natToLEBytes_length]

/-- A throwaway guardian used as the default of `List.getD` lookups in
statements about in-bounds subset signing. -/
def dummyG : TestGuardian :=
  { secret_key := ⟨0⟩, public_key := [], eth_address := [], index := 0 }

/-- Follows the spec's words for the key derivation of `generate`: the
hash input is the seed bytes concatenated with the index-`i` bytes, with
nothing after them (the source instead hashes a zero-initialized 40-byte
buffer, i.e. 24 trailing zero bytes follow). -/
def specSeedIndexInput (seed i : Nat) : List Nat :=
  natToLEBytes 8 seed ++ natToLEBytes 8 i

/-- A session in which every round's simulation succeeds with a
non-empty payload decoding to a `Missing` outcome: resolution never
completes. -/
def alwaysMissing (env : Env) (program_id payer : Pubkey)
    (vaa_body : List Nat) : Prop :=
  ∀ remaining, ∃ data accounts alts,
    env.simulate program_id payer (mkIxData vaa_body) remaining =
      .ok data ∧
    data ≠ [] ∧ env.decode data = some (.Missing accounts alts)

/-- A concrete guardian built from a tiny valid scalar. -/
def gW : TestGuardian :=
  (TestGuardian.new Cw (List.replicate 31 0 ++ [1]) 0).toOption.getD dummyG

/-- The 13-member set generated from seed 0 under the toy crypto. -/
def wSet13 : TestGuardianSet :=
  (TestGuardianSet.generate Cw 13 0).toOption.getD ⟨[]⟩

/-- A 2-member set generated from seed 5 under the toy crypto. -/
def wSet7 : TestGuardianSet :=
  (TestGuardianSet.generate Cw 2 5).toOption.getD ⟨[]⟩

/-- A 2-member set generated from seed 0 under the toy crypto. -/
def wSet9 : TestGuardianSet :=
  (TestGuardianSet.generate Cw 2 0).toOption.getD ⟨[]⟩

/-- A concrete environment whose every simulation reports two missing
accounts: the payer sentinel and the shim signature sentinel. -/
def envMiss : Env where
  simulate _ _ _ _ := .ok [7]
  decode _ := some (.Missing [RESOLVER_PUBKEY_PAYER, RESOLVER_PUBKEY_SHIM_VAA_SIGS] [])

/-- A concrete environment whose every simulation returns an empty
payload. -/
def envEmpty : Env where
  simulate _ _ _ _ := .ok []
  decode _ := none

/-! ## Helper lemmas -/

theorem beBytesToNat_go (l : List Nat) : ∀ a : Nat,
    l.foldl (fun acc x => acc * 256 + x) a =
      a * 256 ^ l.length + l.foldl (fun acc x => acc * 256 + x) 0 := by
  induction l with
  | nil => intro a; simp
  | cons x l ih =>
    intro a
    simp only [List.foldl_cons, List.length_cons]
    rw [ih (a * 256 + x), ih (0 * 256 + x)]
    ring

theorem beBytesToNat_cons (x : Nat) (l : List Nat) :
    beBytesToNat (x :: l) = x * 256 ^ l.length + beBytesToNat l := by
  unfold beBytesToNat
  simpa using beBytesToNat_go l x

theorem beBytesToNat_lt (l : List Nat) (h : ∀ x ∈ l, x < 256) :
    beBytesToNat l < 256 ^ l.length := by
  induction l with
  | nil => simp [beBytesToNat]
  | cons x l ih =>
    rw [beBytesToNat_cons]
    have hx : x < 256 := h x (List.mem_cons_self x l)
    have hl := ih (fun y hy => h y (List.mem_cons_of_mem _ hy))
    rw [List.length_cons, pow_succ]
    nlinarith [hl, hx, pow_pos (show 0 < 256 by norm_num) l.length]

theorem beBytesToNat_inj : ∀ {a b : List Nat},
    (∀ x ∈ a, x < 256) → (∀ x ∈ b, x < 256) → a.length = b.length →
    beBytesToNat a = beBytesToNat b → a = b := by
  intro a
  induction a with
  | nil =>
    intro b _ _ hlen _
    cases b with
    | nil => rfl
    | cons y b => simp at hlen
  | cons x a ih =>
    intro b ha hb hlen heq
    cases b with
    | nil => simp at hlen
    | cons y b =>
      simp only [List.length_cons, Nat.add_right_cancel_iff] at hlen
      rw [beBytesToNat_cons, beBytesToNat_cons, hlen] at heq
      have hra := beBytesToNat_lt a (fun z hz => ha z (List.mem_cons_of_mem _ hz))
      have hrb := beBytesToNat_lt b (fun z hz => hb z (List.mem_cons_of_mem _ hz))
      rw [hlen] at hra
      have hP : 0 < 256 ^ b.length := pow_pos (by norm_num) _
      have hx : x = (beBytesToNat a + x * 256 ^ b.length) / 256 ^ b.length := by
        rw [Nat.add_mul_div_right _ _ hP, Nat.div_eq_of_lt hra]
        omega
      have hy : y = (beBytesToNat b + y * 256 ^ b.length) / 256 ^ b.length := by
        rw [Nat.add_mul_div_right _ _ hP, Nat.div_eq_of_lt hrb]
        omega
      have heq' : beBytesToNat a + x * 256 ^ b.length =
          beBytesToNat b + y * 256 ^ b.length := by omega
      have hxy : x = y := by rw [hx, hy, heq']
      have hab : beBytesToNat a = beBytesToNat b := by
        rw [hxy] at heq; omega
      rw [hxy, ih (fun z hz => ha z (List.mem_cons_of_mem _ hz))
        (fun z hz => hb z (List.mem_cons_of_mem _ hz)) hlen hab]

theorem SecretKey.parse_ok_scalar {b : List Nat} {sk : SecretKey}
    (h : SecretKey.parse b = .ok sk) : sk.scalar = beBytesToNat b := by
  unfold SecretKey.parse at h
  split_ifs at h
  injection h with h
  rw [← h]

theorem TestGuardian.new_error_iff (C : Crypto) (b : List Nat) (idx : Nat) :
    TestGuardian.new C b idx = .error .InvalidKey ↔ ¬ validSecretKeyBytes b := by
  unfold TestGuardian.new SecretKey.parse validSecretKeyBytes
  split_ifs with hv <;> simp [hv]

theorem TestGuardian.new_ok_iff (C : Crypto) (b : List Nat) (idx : Nat) :
    (∃ g, TestGuardian.new C b idx = .ok g) ↔ validSecretKeyBytes b := by
  unfold TestGuardian.new SecretKey.parse validSecretKeyBytes
  split_ifs with hv <;> simp [hv]

theorem TestGuardian.new_ok_index {C : Crypto} {b : List Nat} {idx : Nat}
    {g : TestGuardian} (h : TestGuardian.new C b idx = .ok g) :
    g.index = idx := by
  unfold TestGuardian.new SecretKey.parse at h
  split at h <;> simp_all
  exact (congrArg TestGuardian.index h.symm)

theorem TestGuardian.new_ok_secret {C : Crypto} {b : List Nat} {idx : Nat}
    {g : TestGuardian} (h : TestGuardian.new C b idx = .ok g) :
    SecretKey.parse b = .ok g.secret_key := by
  unfold TestGuardian.new at h
  revert h
  cases hp : SecretKey.parse b with
  | error e => intro h; cases h
  | ok sk => intro h; simp at h; rw [← h]

theorem TestGuardian.sign_length (C : Crypto) (g : TestGuardian)
    (digest : List Nat) : (g.sign C digest).length = 65 := by
  simp [TestGuardian.sign, C.secpSign_length]

theorem mapExcept_ok_length {ε α β : Type} (f : α → Except ε β) :
    ∀ {l : List α} {ys : List β}, mapExcept f l = .ok ys →
      ys.length = l.length := by
  intro l
  induction l with
  | nil => intro ys h; simp [mapExcept] at h; simp [← h]
  | cons a l ih =>
    intro ys h
    unfold mapExcept at h
    revert h
    cases f a with
    | error e => intro h; cases h
    | ok b =>
      cases hm : mapExcept f l with
      | error e => intro h; cases h
      | ok bs =>
        intro h
        simp at h
        rw [← h]
        simp [ih hm]

theorem mapExcept_ok_get? {ε α β : Type} (f : α → Except ε β) :
    ∀ {l : List α} {ys : List β}, mapExcept f l = .ok ys →
      ∀ {i : Nat} {x : α}, l.get? i = some x →
        ∃ y, f x = .ok y ∧ ys.get? i = some y := by
  intro l
  induction l with
  | nil => intro ys _ i x hx; cases hx
  | cons a l ih =>
    intro ys h i x hx
    unfold mapExcept at h
    revert h
    cases hf : f a with
    | error e => intro h; cases h
    | ok b =>
      cases hm : mapExcept f l with
      | error e => intro h; cases h
      | ok bs =>
        intro h
        simp at h
        cases i with
        | zero =>
          have hax : some a = some x := hx
          have hax' : a = x := by injection hax
          refine ⟨b, by rw [← hax']; exact hf, ?_⟩
          rw [← h]
          rfl
        | succ i =>
          obtain ⟨y, hy1, hy2⟩ := ih hm hx
          refine ⟨y, hy1, ?_⟩
          rw [← h]
          exact hy2

theorem generate_ok_length {C : Crypto} {count seed : Nat}
    {s : TestGuardianSet}
    (h : TestGuardianSet.generate C count seed = .ok s) :
    s.guardians.length = count := by
  unfold TestGuardianSet.generate at h
  revert h
  cases hm : mapExcept
      (fun i => TestGuardian.new C (C.keccak256 (genInput seed i)) (i % 256))
      (List.range count) with
  | error e => intro h; cases h
  | ok gs =>
    intro h
    simp at h
    rw [← h]
    simpa using mapExcept_ok_length _ hm

theorem generate_ok_get? {C : Crypto} {count seed : Nat}
    {s : TestGuardianSet}
    (h : TestGuardianSet.generate C count seed = .ok s) :
    ∀ {i : Nat}, i < count → ∃ g, s.guardians.get? i = some g ∧
      TestGuardian.new C (C.keccak256 (genInput seed i)) (i % 256) = .ok g := by
  intro i hi
  unfold TestGuardianSet.generate at h
  revert h
  cases hm : mapExcept
      (fun i => TestGuardian.new C (C.keccak256 (genInput seed i)) (i % 256))
      (List.range count) with
  | error e => intro h; cases h
  | ok gs =>
    intro h
    simp at h
    obtain ⟨y, hy1, hy2⟩ := mapExcept_ok_get? _ hm (List.get?_range hi)
    exact ⟨y, by rw [← h]; exact hy2, hy1⟩

theorem sign_vaa_body_length (C : Crypto) (g : TestGuardian)
    (vaa_body : List Nat) : (g.sign_vaa_body C vaa_body).length = 66 := by
  simp [TestGuardian.sign_vaa_body, TestGuardian.sign, C.secpSign_length]

theorem filterMap_get?_eq {α : Type} (l : List α) (idx : List Nat) (d : α) :
    idx.filterMap (fun i => l.get? i) =
      (idx.filter (fun i => decide (i < l.length))).map (fun i => l.getD i d) := by
  induction idx with
  | nil => rfl
  | cons i is ih =>
    by_cases h : i < l.length
    · obtain ⟨x, hx⟩ : ∃ x, l.get? i = some x := by
        cases hg : l.get? i with
        | none => rw [List.get?_eq_none] at hg; omega
        | some x => exact ⟨x, rfl⟩
      have hgd : l.getD i d = x := by rw [List.getD_eq_get?, hx]; rfl
      simp only [List.get?_eq_getElem?] at ih hx
      simp [List.filterMap_cons, List.filter_cons, h, hx, ih, hgd]
    · have hx : l.get? i = none := by rw [List.get?_eq_none]; omega
      simp only [List.get?_eq_getElem?] at ih hx
      simp [List.filterMap_cons, List.filter_cons, h, hx, ih]

theorem resolveRound_done_ok_iterations {env : Env}
    {program_id payer guardian_set : Pubkey} {vaa_body : List Nat}
    {iteration : Nat} {remaining : List AccountMeta} {r : ResolverResult}
    (h : resolveRound env program_id payer vaa_body guardian_set iteration
      remaining = .done (.ok r)) : r.iterations = iteration := by
  unfold resolveRound at h
  revert h
  cases env.simulate program_id payer (mkIxData vaa_body) remaining with
  | error e => intro h; cases h
  | ok data =>
    by_cases hd : data = []
    · simp [hd]
    · simp only [hd, if_neg]
      cases env.decode data with
      | none => intro h; cases h
      | some out =>
        cases out with
        | Resolved groups =>
          intro h
          simp at h
          rw [← h]
        | Missing accounts alts => intro h; cases h
        | Account => intro h; cases h

theorem resolveRound_next_extends {env : Env}
    {program_id payer guardian_set : Pubkey} {vaa_body : List Nat}
    {iteration : Nat} {remaining remaining' : List AccountMeta}
    (h : resolveRound env program_id payer vaa_body guardian_set iteration
      remaining = .next remaining') : ∃ t, remaining' = remaining ++ t := by
  unfold resolveRound at h
  revert h
  cases env.simulate program_id payer (mkIxData vaa_body) remaining with
  | error e => intro h; cases h
  | ok data =>
    by_cases hd : data = []
    · simp [hd]
    · simp only [hd, if_neg]
      cases env.decode data with
      | none => intro h; cases h
      | some out =>
        cases out with
        | Resolved groups => intro h; cases h
        | Missing accounts alts =>
          intro h
          simp at h
          exact ⟨_, h.symm⟩
        | Account => intro h; cases h

theorem resolveGo_done_step (env : Env)
    (program_id payer guardian_set : Pubkey) (vaa_body : List Nat)
    (max_iterations fuel : Nat) (remaining : List AccountMeta)
    (r : Except ResolveError ResolverResult)
    (h : resolveRound env program_id payer vaa_body guardian_set
      (max_iterations - fuel) remaining = .done r) :
    resolveGo env program_id payer vaa_body guardian_set max_iterations
      (fuel + 1) remaining = r := by
  unfold resolveGo
  rw [h]

theorem resolveGo_ok_iterations {env : Env}
    {program_id payer guardian_set : Pubkey} {vaa_body : List Nat}
    {max_iterations : Nat} :
    ∀ fuel, fuel ≤ max_iterations →
      ∀ remaining r, resolveGo env program_id payer vaa_body guardian_set
          max_iterations fuel remaining = .ok r →
        1 ≤ r.iterations ∧ r.iterations ≤ max_iterations := by
  intro fuel
  induction fuel with
  | zero => intro _ remaining r h; cases h
  | succ fuel ih =>
    intro hle remaining r h
    unfold resolveGo at h
    revert h
    cases hr : resolveRound env program_id payer vaa_body guardian_set
        (max_iterations - fuel) remaining with
    | done r0 =>
      intro h
      simp at h
      rw [h] at hr
      have := resolveRound_done_ok_iterations hr
      omega
    | next remaining' =>
      intro h
      simp at h
      exact ih (by omega) remaining' r h

theorem resolveGo_alwaysMissing {env : Env}
    {program_id payer guardian_set : Pubkey} {vaa_body : List Nat}
    {max_iterations : Nat}
    (hm : alwaysMissing env program_id payer vaa_body) :
    ∀ fuel remaining, resolveGo env program_id payer vaa_body guardian_set
        max_iterations fuel remaining =
      .error (.ResolutionExhausted max_iterations) := by
  intro fuel
  induction fuel with
  | zero => intro remaining; rfl
  | succ fuel ih =>
    intro remaining
    obtain ⟨data, accounts, alts, hsim, hne, hdec⟩ := hm remaining
    unfold resolveGo resolveRound
    rw [hsim]
    simp only [hne, if_neg, hdec]
    exact ih _

/-! ## Claim theorems -/

/-- C1: constructing a guardian from 32 key bytes that are not a valid
secp256k1 scalar fails with `InvalidKey`; valid key bytes always
construct a guardian (the only fallible path is key parsing); and
signing any well-formed 32-byte digest is infallible, always returning
a 65-byte signature. -/
theorem new_invalid_key_sign_total (C : Crypto) :
    (∀ b idx, b.length = 32 → ¬ validSecretKeyBytes b →
      TestGuardian.new C b idx = .error .InvalidKey) ∧
    (∀ b idx, b.length = 32 → validSecretKeyBytes b →
      ∃ g, TestGuardian.new C b idx = .ok g) ∧
    (∀ g digest, digest.length = 32 →
      (TestGuardian.sign C g digest).length = 65) := by
  refine ⟨?_, ?_, ?_⟩
  · intro b idx _ hv
    exact (TestGuardian.new_error_iff C b idx).mpr hv
  · intro b idx _ hv
    exact (TestGuardian.new_ok_iff C b idx).mpr hv
  · intro g digest _
    exact TestGuardian.sign_length C g digest

theorem new_invalid_key_sign_total_witness :
    TestGuardian.new Cw (List.replicate 32 0) 7 = .error .InvalidKey ∧
    (TestGuardian.sign Cw gW (List.replicate 32 0)).length = 65 :=
  ⟨(new_invalid_key_sign_total Cw).1 (List.replicate 32 0) 7 (by decide)
      (by decide),
   (new_invalid_key_sign_total Cw).2.2 gW (List.replicate 32 0) (by decide)⟩

/-- C3: for any attester and any record body, `sign_vaa_body` returns a
66-byte record whose first byte is the attester's assigned index and
whose remaining 65 bytes are the ECDSA signature (with recovery byte)
over the canonical digest `keccak256(keccak256(body))`. -/
theorem sign_vaa_body_record_format (C : Crypto) (g : TestGuardian)
    (vaa_body : List Nat) :
    (g.sign_vaa_body C vaa_body).length = 66 ∧
    (g.sign_vaa_body C vaa_body).head? = some g.index ∧
    (g.sign_vaa_body C vaa_body).tail =
      g.sign C (C.keccak256 (C.keccak256 vaa_body)) :=
  ⟨sign_vaa_body_length C g vaa_body, rfl, rfl⟩

/-- C10: with `max_iterations = 0` resolution fails immediately with the
exhaustion error; the result is the same for every environment, so the
execution environment is never contacted and no request is encoded. -/
theorem resolve_zero_iterations_no_simulation (env : Env)
    (program_id payer guardian_set : Pubkey) (vaa_body : List Nat) :
    resolve_execute_vaa_v1 env program_id payer vaa_body guardian_set 0 =
      .error (.ResolutionExhausted 0) :=
  rfl

/-- C7 counterexample: under a crypto whose hash distinguishes input
lengths, the key `generate` derives for guardian 0 differs from the
scalar of the hash of `specSeedIndexInput` (the spec's formula
`hash(seed bytes ‖ index bytes)`): the source hashes a zero-padded
40-byte buffer, not the bare 16-byte concatenation. -/
theorem generate_spec_formula_counterexample :
    (TestGuardianSet.generate Cx 1 0).toOption.map
        (fun s => s.guardians.map (fun g => g.secret_key.scalar)) ≠
      some [beBytesToNat (Cx.keccak256 (specSeedIndexInput 0 0))] := by
  decide

/-- C7 (amended): `TestGuardianSet.generate` is deterministic, and
derives attester `i`'s signing key as the hash of the zero-initialized
40-byte buffer holding the seed bytes followed by the index-`i` bytes
(`genInput`, i.e. seed-LE8 ‖ index-LE8 ‖ 24 zero bytes) — the index is
mixed into the hash input; two calls with identical `(count, seed)`
yield identical sets, member by member, in the same order. -/
theorem generate_deterministic_key_derivation (C : Crypto)
    (count seed : Nat) (s : TestGuardianSet)
    (h : TestGuardianSet.generate C count seed = .ok s) :
    s.guardians.length = count ∧
    (∀ i, i < count → ∃ g, s.guardians.get? i = some g ∧
      SecretKey.parse (C.keccak256 (genInput seed i)) = .ok g.secret_key ∧
      g.index = i % 256) ∧
    (∀ s', TestGuardianSet.generate C count seed = .ok s' → s' = s) := by
  refine ⟨generate_ok_length h, ?_, ?_⟩
  · intro i hi
    obtain ⟨g, hg1, hg2⟩ := generate_ok_get? h hi
    exact ⟨g, hg1, TestGuardian.new_ok_secret hg2, TestGuardian.new_ok_index hg2⟩
  · intro s' h'
    rw [h'] at h
    injection h with h

theorem generate_deterministic_key_derivation_witness :
    wSet7.guardians.length = 2 :=
  (generate_deterministic_key_derivation Cw 2 5 wSet7 (by decide)).1

/-- C9: in a generated set, the guardian at position `i` carries index
`i % 256` (the `i as u8` cast), so for `count > 256` indices repeat
(position 256 carries the same index as position 0); the hash inputs of
distinct positions (below `2 ^ 64`, the range of `usize`) are distinct
because the full 64-bit position is mixed in, and whenever the hash does
not collide on two positions' inputs, the derived signing keys at those
positions are distinct. -/
theorem generate_index_mod256 (C : Crypto) (count seed : Nat)
    (s : TestGuardianSet)
    (h : TestGuardianSet.generate C count seed = .ok s) :
    (∀ i, i < count →
      (s.guardians.get? i).map TestGuardian.index = some (i % 256)) ∧
    (256 < count → (s.guardians.get? 256).map TestGuardian.index =
      (s.guardians.get? 0).map TestGuardian.index) ∧
    (∀ i j, i < count → j < count → i < 2 ^ 64 → j < 2 ^ 64 → i ≠ j →
      genInput seed i ≠ genInput seed j) ∧
    (∀ i j, i < count → j < count → i < 2 ^ 64 → j < 2 ^ 64 → i ≠ j →
      C.keccak256 (genInput seed i) ≠ C.keccak256 (genInput seed j) →
      (s.guardians.get? i).map (fun g => g.secret_key) ≠
        (s.guardians.get? j).map (fun g => g.secret_key)) := by
  have hidx : ∀ i, i < count →
      (s.guardians.get? i).map TestGuardian.index = some (i % 256) := by
    intro i hi
    obtain ⟨g, hg1, hg2⟩ := generate_ok_get? h hi
    rw [hg1]
    simp [TestGuardian.new_ok_index hg2]
  refine ⟨hidx, ?_, ?_, ?_⟩
  · intro h256
    rw [hidx 256 h256, hidx 0 (by omega)]
  · intro i j hic hjc hi64 hj64 hne heq
    unfold genInput at heq
    rw [List.append_assoc, List.append_assoc] at heq
    have h264 : (256 : Nat) ^ 8 = 2 ^ 64 := by norm_num
    have h1 := List.append_cancel_left heq
    have h2 := List.append_cancel_right h1
    exact hne (natToLEBytes_inj (show i < 256 ^ 8 by rw [h264]; exact hi64)
      (show j < 256 ^ 8 by rw [h264]; exact hj64) h2)
  · intro i j hi hj _ _ _ hkec
    obtain ⟨gi, hgi1, hgi2⟩ := generate_ok_get? h hi
    obtain ⟨gj, hgj1, hgj2⟩ := generate_ok_get? h hj
    rw [hgi1, hgj1]
    simp only [Option.map_some', ne_eq, Option.some.injEq]
    intro hcon
    have hvi := SecretKey.parse_ok_scalar (TestGuardian.new_ok_secret hgi2)
    have hvj := SecretKey.parse_ok_scalar (TestGuardian.new_ok_secret hgj2)
    have hbe : beBytesToNat (C.keccak256 (genInput seed i)) =
        beBytesToNat (C.keccak256 (genInput seed j)) := by
      rw [← hvi, ← hvj, hcon]
    exact hkec (beBytesToNat_inj (C.keccak256_byte _) (C.keccak256_byte _)
      (by rw [C.keccak256_length, C.keccak256_length]) hbe)

theorem generate_index_mod256_witness :
    (wSet9.guardians.get? 0).map TestGuardian.index = some 0 ∧
    (wSet9.guardians.get? 0).map (fun g => g.secret_key) ≠
      (wSet9.guardians.get? 1).map (fun g => g.secret_key) := by
  have H := generate_index_mod256 Cw 2 0 wSet9 (by decide)
  exact ⟨H.1 0 (by norm_num),
    H.2.2.2 0 1 (by norm_num) (by norm_num) (by norm_num) (by norm_num)
      (by norm_num) (by decide)⟩

theorem sign_vaa_body_with_eq (C : Crypto) (s : TestGuardianSet)
    (vaa_body indices : List Nat) :
    s.sign_vaa_body_with C vaa_body indices =
      (indices.filter (fun i => decide (i < s.guardians.length))).map
        (fun i => (s.guardians.getD i dummyG).sign_vaa_body C vaa_body) := by
  unfold TestGuardianSet.sign_vaa_body_with
  rw [filterMap_get?_eq s.guardians indices dummyG, List.map_map]
  rfl

theorem sign_vaa_body_with_heads (C : Crypto) (s : TestGuardianSet)
    (vaa_body indices : List Nat) :
    (s.sign_vaa_body_with C vaa_body indices).map List.head? =
      (indices.filter (fun i => decide (i < s.guardians.length))).map
        (fun i => some (s.guardians.getD i dummyG).index) := by
  rw [sign_vaa_body_with_eq, List.map_map]
  rfl

theorem generate_getD_index {C : Crypto} {count seed : Nat}
    {s : TestGuardianSet}
    (h : TestGuardianSet.generate C count seed = .ok s) :
    ∀ i, i < count → (s.guardians.getD i dummyG).index = i % 256 := by
  intro i hi
  obtain ⟨g, hg1, hg2⟩ := generate_ok_get? h hi
  rw [List.getD_eq_get?, hg1]
  exact TestGuardian.new_ok_index hg2

/-- C2: subset signing returns exactly one 66-byte record per in-bounds
index in `indices`, in the order given, each headed by the selected
member's index; out-of-bounds indices are silently dropped. For a
13-member generated set and indices `[0, 2, 4]` the result has length 3
with first bytes 0, 2, 4. -/
theorem sign_vaa_body_with_subset (C : Crypto) (s : TestGuardianSet)
    (vaa_body indices : List Nat) :
    s.sign_vaa_body_with C vaa_body indices =
      (indices.filter (fun i => decide (i < s.guardians.length))).map
        (fun i => (s.guardians.getD i dummyG).sign_vaa_body C vaa_body) ∧
    (s.sign_vaa_body_with C vaa_body indices).map List.head? =
      (indices.filter (fun i => decide (i < s.guardians.length))).map
        (fun i => some (s.guardians.getD i dummyG).index) ∧
    (∀ r ∈ s.sign_vaa_body_with C vaa_body indices, r.length = 66) ∧
    (∀ seed s13, TestGuardianSet.generate C 13 seed = .ok s13 →
      (s13.sign_vaa_body_with C vaa_body [0, 2, 4]).map List.head? =
        [some 0, some 2, some 4]) := by
  refine ⟨sign_vaa_body_with_eq C s vaa_body indices,
    sign_vaa_body_with_heads C s vaa_body indices, ?_, ?_⟩
  · intro r hr
    unfold TestGuardianSet.sign_vaa_body_with at hr
    obtain ⟨g, _, rfl⟩ := List.mem_map.1 hr
    exact sign_vaa_body_length C g vaa_body
  · intro seed s13 h13
    have hlen13 : s13.guardians.length = 13 := generate_ok_length h13
    rw [sign_vaa_body_with_heads]
    have hfilter : ([0, 2, 4] : List Nat).filter
        (fun i => decide (i < s13.guardians.length)) = [0, 2, 4] := by
      rw [hlen13]
      rfl
    rw [hfilter]
    have hgd := generate_getD_index h13
    simp only [List.getD_eq_getElem?_getD] at hgd
    simp [hgd 0 (by norm_num), hgd 2 (by norm_num), hgd 4 (by norm_num)]

theorem sign_vaa_body_with_subset_witness :
    (wSet13.sign_vaa_body_with Cw [1, 2, 3] [0, 2, 4]).map List.head? =
      [some 0, some 2, some 4] :=
  (sign_vaa_body_with_subset Cw wSet13 [1, 2, 3] [0, 2, 4]).2.2.2 0 wSet13
    (by decide)

/-- C4: the resolution loop is bounded: a successful session resolves at
some round between 1 and `max_iterations`, and a session in which every
round reports `Missing` (so round `max_iterations` completes without a
`Resolved` outcome) terminates with the `ResolutionExhausted` error —
the loop never runs more than `max_iterations` rounds. -/
theorem resolve_exhaustion_bound (env : Env)
    (program_id payer : Pubkey) (vaa_body : List Nat)
    (guardian_set : Pubkey) (max_iterations : Nat) :
    (∀ r, resolve_execute_vaa_v1 env program_id payer vaa_body guardian_set
        max_iterations = .ok r →
      1 ≤ r.iterations ∧ r.iterations ≤ max_iterations) ∧
    (alwaysMissing env program_id payer vaa_body →
      resolve_execute_vaa_v1 env program_id payer vaa_body guardian_set
        max_iterations = .error (.ResolutionExhausted max_iterations)) := by
  constructor
  · intro r h
    unfold resolve_execute_vaa_v1 at h
    exact resolveGo_ok_iterations max_iterations (le_refl _) [] r h
  · intro hm
    unfold resolve_execute_vaa_v1
    exact resolveGo_alwaysMissing hm max_iterations []

theorem resolve_exhaustion_bound_witness :
    resolve_execute_vaa_v1 envMiss 0 55 [1] 66 3 =
      .error (.ResolutionExhausted 3) :=
  (resolve_exhaustion_bound envMiss 0 55 [1] 66 3).2
    (fun _ => ⟨[7], [RESOLVER_PUBKEY_PAYER, RESOLVER_PUBKEY_SHIM_VAA_SIGS],
      [], rfl, by decide, rfl⟩)

/-- C5: the payer sentinel is replaced by the payer's pubkey, the
guardian-set sentinel by the caller-supplied guardian set, and every
other reference — the shim signature sentinel included — passes through
unchanged; in a `Missing` round, every reported reference is substituted
this way before being appended to the accumulated accounts. -/
theorem missing_reference_substitution (env : Env)
    (program_id payer : Pubkey) (vaa_body : List Nat)
    (guardian_set : Pubkey) (iteration : Nat)
    (remaining : List AccountMeta) :
    substitute_placeholder RESOLVER_PUBKEY_PAYER payer guardian_set = payer ∧
    substitute_placeholder RESOLVER_PUBKEY_GUARDIAN_SET payer guardian_set =
      guardian_set ∧
    substitute_placeholder RESOLVER_PUBKEY_SHIM_VAA_SIGS payer guardian_set =
      RESOLVER_PUBKEY_SHIM_VAA_SIGS ∧
    (∀ p, p ≠ RESOLVER_PUBKEY_PAYER → p ≠ RESOLVER_PUBKEY_GUARDIAN_SET →
      substitute_placeholder p payer guardian_set = p) ∧
    (∀ data missing alts,
      env.simulate program_id payer (mkIxData vaa_body) remaining =
        .ok data →
      data ≠ [] → env.decode data = some (.Missing missing alts) →
      resolveRound env program_id payer vaa_body guardian_set iteration
          remaining =
        .next (remaining ++ missing.map (fun p => AccountMeta.new_readonly
          (substitute_placeholder p payer guardian_set) false))) := by
  refine ⟨rfl, ?_, ?_, ?_, ?_⟩
  · simp [substitute_placeholder, RESOLVER_PUBKEY_PAYER,
      RESOLVER_PUBKEY_GUARDIAN_SET]
  · simp [substitute_placeholder, RESOLVER_PUBKEY_PAYER,
      RESOLVER_PUBKEY_GUARDIAN_SET, RESOLVER_PUBKEY_SHIM_VAA_SIGS]
  · intro p h1 h2
    simp [substitute_placeholder, h1, h2]
  · intro data missing alts hsim hne hdec
    unfold resolveRound
    rw [hsim]
    simp [hne, hdec]

theorem missing_reference_substitution_witness :
    resolveRound envMiss 0 55 [1] 66 1 [] =
      .next ([] ++ [RESOLVER_PUBKEY_PAYER,
        RESOLVER_PUBKEY_SHIM_VAA_SIGS].map (fun p =>
          AccountMeta.new_readonly (substitute_placeholder p 55 66) false)) :=
  (missing_reference_substitution envMiss 0 55 [1] 66 1 []).2.2.2.2
    [7] [RESOLVER_PUBKEY_PAYER, RESOLVER_PUBKEY_SHIM_VAA_SIGS] []
    rfl (by decide) rfl

/-- C6: a round ends the session with `EmptyResponse` exactly when the
simulation returned an empty payload, with `DeserializationError`
exactly when a non-empty payload fails to decode, and with
`UnsupportedOutcome` exactly when it decodes to the `Account` variant;
any `done` round outcome is the whole session's result (no instruction
groups are returned on failure). -/
theorem round_error_classification (env : Env)
    (program_id payer : Pubkey) (vaa_body : List Nat)
    (guardian_set : Pubkey) (iteration : Nat)
    (remaining : List AccountMeta) :
    (resolveRound env program_id payer vaa_body guardian_set iteration
        remaining = .done (.error (.EmptyResponse iteration)) ↔
      env.simulate program_id payer (mkIxData vaa_body) remaining =
        .ok []) ∧
    (resolveRound env program_id payer vaa_body guardian_set iteration
        remaining = .done (.error .DeserializationError) ↔
      ∃ data, env.simulate program_id payer (mkIxData vaa_body) remaining =
        .ok data ∧ data ≠ [] ∧ env.decode data = none) ∧
    (resolveRound env program_id payer vaa_body guardian_set iteration
        remaining = .done (.error .UnsupportedOutcome) ↔
      ∃ data, env.simulate program_id payer (mkIxData vaa_body) remaining =
        .ok data ∧ data ≠ [] ∧ env.decode data = some .Account) ∧
    (∀ max_iterations fuel r,
      resolveRound env program_id payer vaa_body guardian_set
        (max_iterations - fuel) remaining = .done r →
      resolveGo env program_id payer vaa_body guardian_set max_iterations
        (fuel + 1) remaining = r) := by
  refine ⟨?_, ?_, ?_, fun m f r hr =>
    resolveGo_done_step env program_id payer guardian_set vaa_body m f
      remaining r hr⟩
  all_goals
    unfold resolveRound
    cases hs : env.simulate program_id payer (mkIxData vaa_body) remaining with
    | error e => simp
    | ok data =>
      by_cases hd : data = []
      · simp [hd]
      · cases hdec : env.decode data with
        | none => simp [hd, hdec]
        | some out => cases out <;> simp [hd, hdec]

theorem round_error_classification_witness :
    resolveRound envEmpty 0 0 [] 0 5 [] =
      .done (.error (.EmptyResponse 5)) :=
  (round_error_classification envEmpty 0 0 [] 0 5 []).1.mpr rfl

/-- C8: within one session the accumulated account list only grows:
every list reachable from `rem` by resolution rounds is `rem` with a
(possibly empty) suffix appended — entries are never removed, reordered
or deduplicated — so its length never decreases. -/
theorem accumulated_resources_monotone (env : Env)
    (program_id payer : Pubkey) (vaa_body : List Nat)
    (guardian_set : Pubkey) (rem rem' : List AccountMeta)
    (h : ResolveReaches env program_id payer vaa_body guardian_set rem rem') :
    (∃ t, rem' = rem ++ t) ∧ rem.length ≤ rem'.length := by
  induction h with
  | refl => exact ⟨⟨[], by simp⟩, le_refl _⟩
  | tail hab hbc ih =>
    obtain ⟨t, ht⟩ := ih.1
    obtain ⟨it, hround⟩ := hbc
    obtain ⟨t2, ht2⟩ := resolveRound_next_extends hround
    refine ⟨⟨t ++ t2, by rw [ht2, ht, List.append_assoc]⟩, ?_⟩
    have hlen := ih.2
    rw [ht2]
    simp only [List.length_append]
    omega

theorem accumulated_resources_monotone_witness :
    ([] : List AccountMeta).length ≤
      [AccountMeta.new_readonly 55 false,
        AccountMeta.new_readonly RESOLVER_PUBKEY_SHIM_VAA_SIGS false].length :=
  (accumulated_resources_monotone envMiss 0 55 [1] 66 []
    [AccountMeta.new_readonly 55 false,
      AccountMeta.new_readonly RESOLVER_PUBKEY_SHIM_VAA_SIGS false]
    (Relation.ReflTransGen.single ⟨1, by decide⟩)).2
